import Mathlib

/-!
Verification of the koshi-vox provisioning orchestrator (install.js) against its
natural-language specification.  The JavaScript source is shallowly embedded:
JS strings are `String` / `List Char`, timestamps (`new Date().toISOString()` /
`Date.now()`) are `Nat` instants supplied by the caller, external effects
(child processes, the network, the filesystem) are explicit oracles passed as
arguments, and the persisted installation log is an explicit state value.
-/

/- ## Basic character-list utilities (models of JS string primitives) -/

/-- The double-quote character. -/
def qMark : Char := Char.ofNat 34

/-- The opening-brace character. -/
def lbr : Char := Char.ofNat 123

/-- The closing-brace character. -/
def rbr : Char := Char.ofNat 125

/-- Boolean prefix test on character lists. -/
def isPrefixB : List Char → List Char → Bool
  | [], _ => true
  | _ :: _, [] => false
  | a :: as, b :: bs => a == b && isPrefixB as bs

/-- Boolean substring test on character lists; models JS `String.prototype.includes`. -/
def isInfixB (needle : List Char) : List Char → Bool
  | [] => isPrefixB needle []
  | c :: cs => isPrefixB needle (c :: cs) || isInfixB needle cs

/-- Boolean suffix test; models JS `String.prototype.endsWith`. -/
def endsWithB (suffixChars s : List Char) : Bool :=
  isPrefixB suffixChars.reverse s.reverse

/-- Lower-casing of a character list; models JS `String.prototype.toLowerCase`
for the ASCII file names the installer handles. -/
def toLowerChars (s : List Char) : List Char := s.map Char.toLower

/-- JS whitespace test for `trim` (space, tab, newline, carriage return). -/
def isJsWs (c : Char) : Bool := c == ' ' || c == '\t' || c == '\n' || c == '\r'

/-- Models JS `String.prototype.trim`. -/
def jsTrim (s : List Char) : List Char :=
  ((s.dropWhile isJsWs).reverse.dropWhile isJsWs).reverse

/-- Models JS `String.prototype.split(sep)` for a single-character separator:
splits at every occurrence, keeping empty pieces. -/
def splitOnChar (sep : Char) (s : List Char) : List (List Char) :=
  s.foldr
    (fun c acc =>
      match acc with
      | cur :: rest => if c == sep then [] :: cur :: rest else (c :: cur) :: rest
      | [] => [[c]])
    [[]]

/-- Decimal digit characters of a natural number, most significant first;
models JS number rendering for the `Nat` timestamps of this embedding. -/
def natChars (n : Nat) : List Char := Nat.toDigits 10 n

/- ## Installation-log data model (class InstallationLog in install.js) -/

/-- One element of `components.pythonPackages`:
`\x7bname, version, installedAt\x7d`. -/
structure PkgEntry where
  name : String
  version : String
  installedAt : Nat
deriving DecidableEq, Repr

/-- One element of `components.fonts`: `\x7bname, path, installedAt\x7d`. -/
structure FontEntry where
  name : String
  path : String
  installedAt : Nat
deriving DecidableEq, Repr

/-- A scalar JSON field value as used by the scalar components of the log
(`installed`, `path`, `version`, `modified`, `backupPath`, ...). -/
inductive FieldVal where
  | str (s : String)
  | nat (n : Nat)
  | bool (b : Bool)
  | null
deriving DecidableEq, Repr

/-- A JS object of scalar fields, as an insertion-ordered association list. -/
abbrev Fields := List (String × FieldVal)

/-- The `components` object of the installation record.  The two collections
(`pythonPackages`, `fonts`) are explicit; the scalar components (`homebrew`,
`python`, `virtualEnv`, `npmPackage`, `shellConfig`, and any key added later
such as `whisperModel`) live in the insertion-ordered map `scalars`. -/
structure Components where
  pythonPackages : List PkgEntry
  fonts : List FontEntry
  scalars : List (String × Fields)
deriving DecidableEq, Repr

/-- The persisted installation record (`this.log` in class InstallationLog).
`installedAt` is the root timestamp; `system` holds the static
platform/arch/nodeVersion fields. -/
structure InstallationRecord where
  version : String
  installedAt : Nat
  components : Components
  system : Fields
deriving DecidableEq, Repr

/-- Default scalar components created by the InstallationLog constructor. -/
def defaultScalars : List (String × Fields) :=
  [("homebrew", [("installed", .bool false), ("path", .null)]),
   ("python", [("installed", .bool false), ("version", .null), ("path", .null)]),
   ("virtualEnv", [("installed", .bool false), ("path", .null)]),
   ("npmPackage", [("installed", .bool false), ("version", .null), ("prefix", .null)]),
   ("shellConfig", [("modified", .bool false), ("backupPath", .null)])]

/-- The record built by the InstallationLog constructor before `load()`:
version `1.0`, creation instant `now`, empty collections, default scalars. -/
def defaultRecord (now : Nat) (sys : Fields) : InstallationRecord :=
  { version := "1.0"
    installedAt := now
    components := { pythonPackages := [], fonts := [], scalars := defaultScalars }
    system := sys }

/- ## Deduplication (InstallationLog.cleanupDuplicates) -/

/-- One step of the dedup loop: the JS code folds the collection into a plain
object keyed by `name`, replacing the stored entry only when the incoming
entry's `installedAt` is strictly later
(`new Date(pkg.installedAt) > new Date(unique[pkg.name].installedAt)`).
JS objects keep the insertion position of a replaced key, so the accumulator
is an association list updated in place. -/
def upsertLatest {α : Type} (key : α → String) (time : α → Nat)
    (acc : List α) (e : α) : List α :=
  match acc with
  | [] => [e]
  | x :: xs =>
      if key x = key e then
        (if time x < time e then e else x) :: xs
      else
        x :: upsertLatest key time xs e

/-- `Object.values` of the dedup object built by the forEach loop:
fold the collection from the left into an empty object. -/
def dedupByName {α : Type} (key : α → String) (time : α → Nat)
    (l : List α) : List α :=
  l.foldl (upsertLatest key time) []

/-- Pure part of `cleanupDuplicates`: dedup both collections by name keeping
the latest `installedAt`, then refresh the root `installedAt` to this run's
instant. -/
def cleanupRecord (now : Nat) (r : InstallationRecord) : InstallationRecord :=
  { r with
    installedAt := now
    components :=
      { r.components with
        pythonPackages :=
          dedupByName PkgEntry.name PkgEntry.installedAt r.components.pythonPackages
        fonts :=
          dedupByName FontEntry.name FontEntry.installedAt r.components.fonts } }

/- ## Serialization (JSON.stringify of the record in save()) -/

/-- A JSON string literal: quote, raw characters, quote.  The strings the
installer writes (names, versions, paths) contain no characters needing
escapes. -/
def qchars (s : String) : List Char := qMark :: s.data ++ [qMark]

/-- A `"key":value` pair. -/
def renderKV (k : String) (v : List Char) : List Char := qchars k ++ ':' :: v

/-- Comma-separated concatenation. -/
def commaSep : List (List Char) → List Char
  | [] => []
  | [x] => x
  | x :: y :: rest => x ++ ',' :: commaSep (y :: rest)

/-- Render a scalar field value. -/
def renderFieldVal : FieldVal → List Char
  | .str s => qchars s
  | .nat n => natChars n
  | .bool true => "true".data
  | .bool false => "false".data
  | .null => "null".data

/-- Render a JS object of scalar fields. -/
def renderFields (fs : Fields) : List Char :=
  lbr :: commaSep (fs.map fun kv => renderKV kv.1 (renderFieldVal kv.2)) ++ [rbr]

/-- Render one pythonPackages entry. -/
def renderPkg (e : PkgEntry) : List Char :=
  lbr :: renderKV "name" (qchars e.name)
    ++ ',' :: renderKV "version" (qchars e.version)
    ++ ',' :: renderKV "installedAt" (natChars e.installedAt) ++ [rbr]

/-- Render one fonts entry. -/
def renderFont (e : FontEntry) : List Char :=
  lbr :: renderKV "name" (qchars e.name)
    ++ ',' :: renderKV "path" (qchars e.path)
    ++ ',' :: renderKV "installedAt" (natChars e.installedAt) ++ [rbr]

/-- Render a JSON array. -/
def renderArr {α : Type} (render : α → List Char) (l : List α) : List Char :=
  '[' :: commaSep (l.map render) ++ [']']

/-- Render the scalar-components map. -/
def renderScalars (ss : List (String × Fields)) : List Char :=
  lbr :: commaSep (ss.map fun kv => renderKV kv.1 (renderFields kv.2)) ++ [rbr]

/-- Model of `JSON.stringify(this.log)` in `save()`.  The information content
matches the JS object graph; the byte layout differs harmlessly from Node's
(the scalar components are grouped under one `scalars` key of `components`
rather than interleaved with the collections, and the pretty-printing
whitespace of the `null, 2` argument is dropped) — no claim depends on the
byte layout, only on the write being all-or-truncated. -/
def stringifyRecord (r : InstallationRecord) : List Char :=
  lbr :: renderKV "version" (qchars r.version)
    ++ ',' :: renderKV "installedAt" (natChars r.installedAt)
    ++ ',' :: renderKV "components"
         (lbr :: renderKV "pythonPackages" (renderArr renderPkg r.components.pythonPackages)
           ++ ',' :: renderKV "fonts" (renderArr renderFont r.components.fonts)
           ++ ',' :: renderKV "scalars" (renderScalars r.components.scalars) ++ [rbr])
    ++ ',' :: renderKV "system" (renderFields r.system) ++ [rbr]

/- ## Parsing (JSON.parse in load()) -/

/-- Strip an exact expected prefix, or fail. -/
def stripPre : List Char → List Char → Option (List Char)
  | [], s => some s
  | _ :: _, [] => none
  | p :: ps, c :: cs => if c = p then stripPre ps cs else none

/-- Parse a quoted string literal (no escape handling, matching `qchars`). -/
def parseQ : List Char → Option (String × List Char)
  | c :: rest =>
      if c = qMark then
        let content := rest.takeWhile (fun d => ¬ d = qMark)
        match rest.dropWhile (fun d => ¬ d = qMark) with
        | d :: r => if d = qMark then some (String.mk content, r) else none
        | [] => none
      else none
  | [] => none

/-- Parse a decimal natural-number literal. -/
def parseNatNum (s : List Char) : Option (Nat × List Char) :=
  let ds := s.takeWhile Char.isDigit
  match ds with
  | [] => none
  | _ :: _ =>
      some (ds.foldl (fun a c => a * 10 + (c.toNat - 48)) 0, s.drop ds.length)

/-- Parse a scalar field value. -/
def parseFieldVal (s : List Char) : Option (FieldVal × List Char) :=
  match s with
  | c :: _ =>
      if c = qMark then (parseQ s).map (fun vr => (.str vr.1, vr.2))
      else if c = 't' then (stripPre "true".data s).map (fun r => (.bool true, r))
      else if c = 'f' then (stripPre "false".data s).map (fun r => (.bool false, r))
      else if c = 'n' then (stripPre "null".data s).map (fun r => (.null, r))
      else (parseNatNum s).map (fun nr => (.nat nr.1, nr.2))
  | [] => none

/-- Parse `p (',' p)*`, with fuel bounding the element count. -/
def parseElems {β : Type} (p : List Char → Option (β × List Char)) :
    Nat → List Char → Option (List β × List Char)
  | 0, _ => none
  | fuel + 1, s =>
      match p s with
      | none => none
      | some (b, r) =>
          match r with
          | ',' :: r2 =>
              (parseElems p fuel r2).map (fun br => (b :: br.1, br.2))
          | _ => some ([b], r)

/-- Parse a bracketed, comma-separated, possibly empty sequence. -/
def parseDelimited {β : Type} (opn cls : Char)
    (p : List Char → Option (β × List Char)) (fuel : Nat) (s : List Char) :
    Option (List β × List Char) :=
  match s with
  | [] => none
  | c :: rest =>
      if c = opn then
        match rest with
        | [] => none
        | c2 :: r2 =>
            if c2 = cls then some ([], r2)
            else
              match parseElems p fuel rest with
              | some (bs, c3 :: r3) => if c3 = cls then some (bs, r3) else none
              | _ => none
      else none

/-- Parse one pythonPackages entry (shape produced by `renderPkg`). -/
def parsePkg (s : List Char) : Option (PkgEntry × List Char) := do
  let r0 ← stripPre ("\x7b\"name\":").data s
  let (nm, r1) ← parseQ r0
  let r2 ← stripPre (",\"version\":").data r1
  let (ver, r3) ← parseQ r2
  let r4 ← stripPre (",\"installedAt\":").data r3
  let (ts, r5) ← parseNatNum r4
  let r6 ← stripPre ("\x7d").data r5
  pure ({ name := nm, version := ver, installedAt := ts }, r6)

/-- Parse one fonts entry (shape produced by `renderFont`). -/
def parseFont (s : List Char) : Option (FontEntry × List Char) := do
  let r0 ← stripPre ("\x7b\"name\":").data s
  let (nm, r1) ← parseQ r0
  let r2 ← stripPre (",\"path\":").data r1
  let (pth, r3) ← parseQ r2
  let r4 ← stripPre (",\"installedAt\":").data r3
  let (ts, r5) ← parseNatNum r4
  let r6 ← stripPre ("\x7d").data r5
  pure ({ name := nm, path := pth, installedAt := ts }, r6)

/-- Parse one `"key":value` scalar field pair. -/
def parseFieldPair (s : List Char) : Option ((String × FieldVal) × List Char) := do
  let (k, r0) ← parseQ s
  let r1 ← stripPre (":").data r0
  let (v, r2) ← parseFieldVal r1
  pure ((k, v), r2)

/-- Parse one `"key":\x7bfields\x7d` scalar component pair. -/
def parseScalarPair (fuel : Nat) (s : List Char) :
    Option ((String × Fields) × List Char) := do
  let (k, r0) ← parseQ s
  let r1 ← stripPre (":").data r0
  let (fs, r2) ← parseDelimited lbr rbr parseFieldPair fuel r1
  pure ((k, fs), r2)

/-- Model of `JSON.parse` applied to a persisted installation record:
succeeds exactly on complete outputs of `stringifyRecord`, and fails (like a
thrown `SyntaxError`, caught by `load()`) on anything else — in particular on
any truncated prefix of a record. -/
def parseRecord (s : List Char) : Option InstallationRecord := do
  let fuel := s.length
  let r0 ← stripPre ("\x7b\"version\":").data s
  let (ver, r1) ← parseQ r0
  let r2 ← stripPre (",\"installedAt\":").data r1
  let (ts, r3) ← parseNatNum r2
  let r4 ← stripPre (",\"components\":\x7b\"pythonPackages\":").data r3
  let (pkgs, r5) ← parseDelimited '[' ']' parsePkg fuel r4
  let r6 ← stripPre (",\"fonts\":").data r5
  let (fts, r7) ← parseDelimited '[' ']' parseFont fuel r6
  let r8 ← stripPre (",\"scalars\":").data r7
  let (scs, r9) ← parseDelimited lbr rbr (parseScalarPair fuel) fuel r8
  let r10 ← stripPre ("\x7d,\"system\":").data r9
  let (sys, r11) ← parseDelimited lbr rbr parseFieldPair fuel r10
  let r12 ← stripPre ("\x7d").data r11
  if r12 = [] then
    pure { version := ver, installedAt := ts
           components := { pythonPackages := pkgs, fonts := fts, scalars := scs }
           system := sys }
  else none

/- ## Persistent state and the InstallationLog operations -/

/-- The in-memory log together with the persisted file at
`~/.config/koshi-vox/installation.json` (`none` = file absent). -/
structure LogState where
  log : InstallationRecord
  file : Option (List Char)
deriving DecidableEq, Repr

/-- Outcome of one `fs.writeFileSync` call: either the write completes, or it
fails after `k` characters have been written (`writeFileSync` opens the file
with truncation, so a mid-write failure leaves exactly the prefix written so
far). -/
inductive WriteOutcome where
  | complete
  | failsAfter (k : Nat)
deriving DecidableEq, Repr

/-- File content left behind by a `writeFileSync` of `content`. -/
def writeFileSyncModel (o : WriteOutcome) (content : List Char) : List Char :=
  match o with
  | .complete => content
  | .failsAfter k => content.take k

/-- `save()` with an explicit write outcome.  The JS method catches any error
and only prints a warning, so the in-memory log is unchanged either way. -/
def saveWith (o : WriteOutcome) (st : LogState) : LogState :=
  { st with file := some (writeFileSyncModel o (stringifyRecord st.log)) }

/-- `save()` when the write succeeds (the normal case assumed by the other
mutation methods). -/
def save (st : LogState) : LogState := saveWith .complete st

/-- `cleanupDuplicates()`: dedup both collections, refresh the root
timestamp, then `save()`. -/
def cleanupDuplicates (now : Nat) (st : LogState) : LogState :=
  save { st with log := cleanupRecord now st.log }

/-- `load(file, defaults, now)`: if no file exists the constructor defaults
stand; otherwise parse, and on success install the parsed record and run
`cleanupDuplicates` (which saves); a parse failure is caught, a warning is
printed, and the defaults stand with the file untouched. -/
def load (file : Option (List Char)) (defaults : InstallationRecord) (now : Nat) :
    LogState :=
  match file with
  | none => { log := defaults, file := none }
  | some s =>
      match parseRecord s with
      | some r => cleanupDuplicates now { log := r, file := some s }
      | none => { log := defaults, file := some s }

/-- `findIndex`-then-replace-or-`push`, shared shape of `addPythonPackage`
and `addFont`: replace the first entry with the same name, else append. -/
def upsertEntry {α : Type} (key : α → String) (acc : List α) (e : α) : List α :=
  match acc with
  | [] => [e]
  | x :: xs => if key x = key e then e :: xs else x :: upsertEntry key xs e

/-- `addPythonPackage(name, version)`: upsert by name with a fresh
`installedAt`, then `save()`.  The root `installedAt` is not touched. -/
def addPythonPackage (name version : String) (now : Nat) (st : LogState) : LogState :=
  save { st with
    log := { st.log with
      components := { st.log.components with
        pythonPackages :=
          upsertEntry PkgEntry.name st.log.components.pythonPackages
            { name := name, version := version, installedAt := now } } } }

/-- `addFont(name, path)`: upsert by name with a fresh `installedAt`, then
`save()`.  The root `installedAt` is not touched. -/
def addFont (name pth : String) (now : Nat) (st : LogState) : LogState :=
  save { st with
    log := { st.log with
      components := { st.log.components with
        fonts :=
          upsertEntry FontEntry.name st.log.components.fonts
            { name := name, path := pth, installedAt := now } } } }

/-- Replace the first binding of `k` (keeping its position, as JS object
spread does), else append the new binding. -/
def setField (l : Fields) (k : String) (v : FieldVal) : Fields :=
  match l with
  | [] => [(k, v)]
  | (k0, v0) :: rest =>
      if k0 = k then (k, v) :: rest else (k0, v0) :: setField rest k v

/-- JS object spread `\x7b...old, ...upd\x7d`: fields of `upd` override, new
keys append in order. -/
def mergeFields (old upd : Fields) : Fields :=
  upd.foldl (fun acc kv => setField acc kv.1 kv.2) old

/-- Update of the scalar-components map by
`this.log.components[component] = \x7b...old, ...data\x7d`: an existing key is
merged in place; a missing key (spread of `undefined`) is appended with just
the new data. -/
def setScalars (ss : List (String × Fields)) (key : String) (data : Fields) :
    List (String × Fields) :=
  match ss with
  | [] => [(key, mergeFields [] data)]
  | (k0, f0) :: rest =>
      if k0 = key then (k0, mergeFields f0 data) :: rest
      else (k0, f0) :: setScalars rest key data

/-- `setComponent(component, data)`: merge the fields into the named scalar
component, then `save()`.  The root `installedAt` is not touched. -/
def setComponent (key : String) (data : Fields) (st : LogState) : LogState :=
  save { st with
    log := { st.log with
      components := { st.log.components with
        scalars := setScalars st.log.components.scalars key data } } }

/-- Association lookup in a scalar-field object. -/
def lookupFields (l : Fields) (k : String) : Option FieldVal :=
  match l with
  | [] => none
  | (k0, v0) :: rest => if k0 = k then some v0 else lookupFields rest k

/-- Association lookup in the scalar-components map. -/
def lookupScalar (ss : List (String × Fields)) (key : String) : Option Fields :=
  match ss with
  | [] => none
  | (k0, f0) :: rest => if k0 = key then some f0 else lookupScalar rest key

/- ## EnvironmentProbe: the Python detection loop in ensurePython -/

/-- The ordered candidate interpreter commands probed by `ensurePython`. -/
def pythonCommands : List String := ["python3.11", "python3", "python"]

/-- Models JS `parseInt` on an optional string (`none` = `undefined`, whose
`parseInt` is `NaN`, modelled as `none`): skip leading whitespace, optional
sign, then the longest digit prefix; no digits means `NaN`. -/
def jsParseInt (s : Option (List Char)) : Option Int :=
  match s with
  | none => none
  | some cs =>
      let body := cs.dropWhile isJsWs
      let core :=
        match body with
        | '-' :: rest => (rest, true)
        | '+' :: rest => (rest, false)
        | _ => (body, false)
      let ds := core.1.takeWhile Char.isDigit
      match ds with
      | [] => none
      | _ :: _ =>
          let n : Int := Int.ofNat (ds.foldl (fun a c => a * 10 + (c.toNat - 48)) 0)
          some (if core.2 then -n else n)

/-- The version parse inside the detection loop:
`stdout.trim().split(' ')[1]` then `version.split('.')` destructured to
`[major, minor]` and fed to `parseInt`.  A missing second token makes the JS
code throw (caught by the loop) and a missing minor part or non-numeric part
makes `parseInt` return `NaN`; both are `none` here, and in both cases the
candidate is not accepted. -/
def parsedMajorMinor (stdout : List Char) : Option (Int × Int) :=
  match (splitOnChar ' ' (jsTrim stdout)).get? 1 with
  | none => none
  | some version =>
      let parts := splitOnChar '.' version
      match jsParseInt (parts.get? 0), jsParseInt (parts.get? 1) with
      | some ma, some mi => some (ma, mi)
      | _, _ => none

/-- The acceptance test of the loop:
`parseInt(major) >= 3 && parseInt(minor) >= 8` (comparisons with `NaN` are
false). -/
def acceptsVersion (stdout : List Char) : Bool :=
  match parsedMajorMinor stdout with
  | some (ma, mi) => decide (3 ≤ ma) && decide (8 ≤ mi)
  | none => false

/-- Whether one candidate qualifies, given the probe oracle
(`env cmd` = trimmed-later stdout of `cmd --version`, `none` = the command
failed and the `catch` moves on). -/
def qualifies (env : String → Option (List Char)) (cmd : String) : Bool :=
  match env cmd with
  | none => false
  | some out => acceptsVersion out

/-- The detection loop of `ensurePython`: probe the candidates in order and
return the first whose version output passes the acceptance test; `none` when
no candidate qualifies (the loop falls through without throwing). -/
def detectPython (env : String → Option (List Char)) : List String → Option String
  | [] => none
  | c :: cs =>
      match env c with
      | none => detectPython env cs
      | some out => if acceptsVersion out then some c else detectPython env cs

/- ## AssetFetcher: downloadFile with redirects -/

/-- An HTTP response as `downloadFile` consumes it: status code, optional
`Location` header, and the body that would be piped to the destination file. -/
structure HttpResponse where
  statusCode : Nat
  location : Option String
  body : List Char
deriving DecidableEq, Repr

/-- A flat filesystem: path to file content, insertion-ordered. -/
abbrev FS := List (String × List Char)

/-- Write (replace-first-or-append) a file. -/
def fsWrite (fsys : FS) (p : String) (c : List Char) : FS :=
  match fsys with
  | [] => [(p, c)]
  | (p0, c0) :: rest =>
      if p0 = p then (p, c) :: rest else (p0, c0) :: fsWrite rest p c

/-- `fs.unlinkSync`: remove the file (first binding). -/
def fsErase (fsys : FS) (p : String) : FS :=
  match fsys with
  | [] => []
  | (p0, c0) :: rest => if p0 = p then rest else (p0, c0) :: fsErase rest p

/-- File lookup. -/
def fsRead (fsys : FS) (p : String) : Option (List Char) :=
  match fsys with
  | [] => none
  | (p0, c0) :: rest => if p0 = p then some c0 else fsRead rest p

/-- Model of `downloadFile(url, dest)`: on 301/302 delete the partial `dest`
and re-invoke against the `Location` target with the same `dest`; any other
non-200 terminal status deletes `dest` and rejects; a 200 stores the body at
`dest`.  The JS recursion is unbounded, so the embedding carries fuel; claims
quantify over sufficient fuel. -/
def downloadFile (net : String → HttpResponse) :
    Nat → String → String → FS → Except String FS
  | 0, _, _, _ => .error "redirect fuel exhausted"
  | fuel + 1, url, dest, fsys =>
      let resp := net url
      if resp.statusCode = 301 ∨ resp.statusCode = 302 then
        match resp.location with
        | some loc => downloadFile net fuel loc dest (fsErase (fsWrite fsys dest []) dest)
        | none => .error "redirect without location"
      else if resp.statusCode = 200 then
        .ok (fsWrite fsys dest resp.body)
      else
        .error "Failed to download"

/-- A redirect chain: `ReachesTerminal net u k t` says that starting from
`u`, exactly `k` redirect hops (each a 301/302 with a `Location` header) lead
to the terminal URL `t`, whose response is a 200. -/
inductive ReachesTerminal (net : String → HttpResponse) : String → Nat → String → Prop
  | terminal (u : String) : (net u).statusCode = 200 → ReachesTerminal net u 0 u
  | redirect (u v t : String) (k : Nat) :
      ((net u).statusCode = 301 ∨ (net u).statusCode = 302) →
      (net u).location = some v →
      ReachesTerminal net v k t →
      ReachesTerminal net u (k + 1) t

/- ## installFonts: per-item cache policy and scratch-directory lifecycle -/

/-- One font descriptor from the `fonts` array in `installFonts`. -/
structure FontSpec where
  name : String
  url : String
  file : String
deriving DecidableEq, Repr

/-- The cache directory used for font destinations. -/
def CACHE_DIR : String := "~/.cache/koshi-code-fonts"

/-- `path.join(CACHE_DIR, font.file)`. -/
def fontPathOf (font : FontSpec) : String := CACHE_DIR ++ "/" ++ font.file

/-- External-effect oracle for one font item: whether the download promise
resolves, whether `extractZip` resolves, and the file names `readdirSync`
reports in the scratch directory after extraction. -/
structure FontEnv where
  downloadOk : Bool
  extractOk : Bool
  extractedFiles : List (List Char)
deriving Repr

/-- `files.find(f => f.toLowerCase().includes('regular') && (f.endsWith('.ttf') || f.endsWith('.otf')))`. -/
def findRegularVariant (files : List (List Char)) : Option (List Char) :=
  files.find? fun f =>
    isInfixB "regular".data (toLowerChars f) &&
      (endsWithB ".ttf".data f || endsWithB ".otf".data f)

/-- Observable outcome of one iteration of the `installFonts` loop. -/
structure FontItemResult where
  cache : FS
  networkCalls : Nat
  tempCreated : Bool
  tempRemoved : Bool
  logged : Bool
  cachedSkip : Bool
  errorCaught : Bool
deriving Repr

/-- One iteration of the `installFonts` loop for `font`.  If the destination
path exists the item is skipped before any network or scratch work.  Otherwise
a scratch directory is created and the try block runs: a failed download or
extraction jumps to the catch (which only prints), skipping the
`fs.rmSync(tempDir)` at the end of the try block; on the no-throw paths the
scratch directory is removed whether or not a regular variant was found, and a
found variant is copied to the cache and recorded via `addFont`. -/
def installFontItem (env : FontEnv) (font : FontSpec) (cache : FS)
    (now : Nat) (st : LogState) : FontItemResult × LogState :=
  if (fsRead cache (fontPathOf font)).isSome then
    ({ cache := cache, networkCalls := 0, tempCreated := false,
       tempRemoved := false, logged := false, cachedSkip := true,
       errorCaught := false }, st)
  else if env.downloadOk = false then
    ({ cache := cache, networkCalls := 1, tempCreated := true,
       tempRemoved := false, logged := false, cachedSkip := false,
       errorCaught := true }, st)
  else if env.extractOk = false then
    ({ cache := cache, networkCalls := 1, tempCreated := true,
       tempRemoved := false, logged := false, cachedSkip := false,
       errorCaught := true }, st)
  else
    match findRegularVariant env.extractedFiles with
    | some f =>
        ({ cache := fsWrite cache (fontPathOf font) f, networkCalls := 1,
           tempCreated := true, tempRemoved := true, logged := true,
           cachedSkip := false, errorCaught := false },
         addFont font.name (fontPathOf font) now st)
    | none =>
        ({ cache := cache, networkCalls := 1, tempCreated := true,
           tempRemoved := true, logged := false, cachedSkip := false,
           errorCaught := false }, st)

/- ## ShellConfigMutator: updateShellConfig -/

/-- The idempotency marker checked by `content.includes('KOSHI_VOX_VENV')`. -/
def KOSHI_MARKER : List Char := "KOSHI_VOX_VENV".data

/-- The profile file mutated by `updateShellConfig`. -/
def HOME_ZSHRC : String := "~/.zshrc"

/-- The fixed configuration block appended to the profile (the template
literal `envConfig` with `VENV_DIR` substituted). -/
def envConfigBlock (venvDir : String) : List Char :=
  "\n# Koshi-Vox Python Environment\nexport KOSHI_VOX_VENV=\"".data
    ++ venvDir.data
    ++ "\"\nexport KOSHI_VOX_PYTHON=\"".data
    ++ venvDir.data
    ++ "/bin/python\"\n".data

/-- The timestamped backup path ```$\x7bshellConfig\x7d.backup-koshi-$\x7bDate.now()\x7d` ``. -/
def backupPathOf (now : Nat) : String :=
  HOME_ZSHRC ++ ".backup-koshi-" ++ String.mk (natChars now)

/-- State touched by `updateShellConfig`: the profile file's contents, the
backup files created so far, and the installation log. -/
structure ShellState where
  profile : List Char
  backups : List (String × List Char)
  logSt : LogState
deriving Repr

/-- `updateShellConfig()`: read the profile; if it already contains the
marker, do nothing (message only).  Otherwise copy the profile to a
timestamped backup path, append the fixed configuration block, and record
`\x7bmodified: true, backupPath\x7d` under the `shellConfig` component. -/
def updateShellConfig (venvDir : String) (now : Nat) (s : ShellState) : ShellState :=
  if isInfixB KOSHI_MARKER s.profile then s
  else
    { profile := s.profile ++ envConfigBlock venvDir
      backups := s.backups ++ [(backupPathOf now, s.profile)]
      logSt :=
        setComponent "shellConfig"
          [("modified", .bool true), ("backupPath", .str (backupPathOf now))]
          s.logSt }

/- ## PackageInstaller -/

/-- External-effect oracle for dependency installation: whether
`pip install name` succeeds, and the trimmed stdout of the version query
(`none` = the query command failed). -/
structure PipEnv where
  installOk : String → Bool
  showVersion : String → Option String

/-- The version recorded on success: the query's trimmed stdout, with a
failed query or an empty string falling back to `'unknown'`
(`version || 'unknown'`). -/
def versionOrUnknown (env : PipEnv) (name : String) : String :=
  match env.showVersion name with
  | none => "unknown"
  | some v => if v = "" then "unknown" else v

/-- The `PackageInstaller` object: the interpreter path, the ordered
dependency list (names; icons and descriptions are cosmetic), and the
accumulating `installed` / `failed` lists. -/
structure PackageInstaller where
  venvPython : String
  packages : List String
  installed : List String
  failed : List String
deriving DecidableEq, Repr

/-- The dependency names hard-coded in the constructor. -/
def defaultPackages : List String :=
  ["faster-whisper", "soundfile", "librosa", "fastapi", "uvicorn"]

/-- One iteration of the `install()` loop: on success push the name to
`installed` and record it in the log with its queried version; on failure
push the name to `failed` and continue. -/
def installStep (env : PipEnv) (now : Nat)
    (s : PackageInstaller × LogState) (name : String) :
    PackageInstaller × LogState :=
  if env.installOk name then
    ({ s.1 with installed := s.1.installed ++ [name] },
     addPythonPackage name (versionOrUnknown env name) now s.2)
  else
    ({ s.1 with failed := s.1.failed ++ [name] }, s.2)

/-- `install()`: iterate over every package in order, then report
`this.failed.length === 0` as the overall outcome. -/
def install (env : PipEnv) (now : Nat) (inst : PackageInstaller)
    (st : LogState) : PackageInstaller × LogState × Bool :=
  let r := inst.packages.foldl (installStep env now) (inst, st)
  (r.1, r.2, r.1.failed.length == 0)

/-- Whether the log's pythonPackages collection has an entry named `n`. -/
def hasPkgNamed (st : LogState) (n : String) : Bool :=
  st.log.components.pythonPackages.any fun e => e.name == n

/- ## Lemmas about the dedup fold (cleanupDuplicates) -/

section DedupLemmas

variable {α : Type} (key : α → String) (time : α → Nat)

theorem key_mem_upsertLatest (acc : List α) (e : α) (n : String) :
    n ∈ (upsertLatest key time acc e).map key ↔ n ∈ acc.map key ∨ n = key e := by
  induction acc with
  | nil => simp [upsertLatest]
  | cons x xs ih =>
      by_cases h : key x = key e
      · by_cases ht : time x < time e
        · simp only [upsertLatest, if_pos h, if_pos ht, List.map_cons, List.mem_cons]
          rw [h]
          tauto
        · simp only [upsertLatest, if_pos h, if_neg ht, List.map_cons, List.mem_cons]
          rw [h]
          tauto
      · simp only [upsertLatest, if_neg h, List.map_cons, List.mem_cons, ih]
        tauto

theorem nodup_key_upsertLatest (acc : List α) (e : α)
    (hnd : (acc.map key).Nodup) : ((upsertLatest key time acc e).map key).Nodup := by
  induction acc with
  | nil => simp [upsertLatest]
  | cons x xs ih =>
      simp only [List.map_cons, List.nodup_cons] at hnd
      by_cases h : key x = key e
      · by_cases ht : time x < time e
        · simp only [upsertLatest, if_pos h, if_pos ht, List.map_cons, List.nodup_cons]
          exact ⟨h ▸ hnd.1, hnd.2⟩
        · simp only [upsertLatest, if_pos h, if_neg ht, List.map_cons, List.nodup_cons]
          exact hnd
      · simp only [upsertLatest, if_neg h, List.map_cons, List.nodup_cons]
        refine ⟨?_, ih hnd.2⟩
        rw [key_mem_upsertLatest]
        rintro (hx | hx)
        · exact hnd.1 hx
        · exact h hx

theorem mem_of_mem_upsertLatest (acc : List α) (e : α) (y : α)
    (hy : y ∈ upsertLatest key time acc e) : y ∈ acc ∨ y = e := by
  induction acc with
  | nil => simpa [upsertLatest] using hy
  | cons x xs ih =>
      by_cases h : key x = key e
      · by_cases ht : time x < time e
        · simp only [upsertLatest, if_pos h, if_pos ht, List.mem_cons] at hy
          rcases hy with hy | hy
          · exact Or.inr hy
          · exact Or.inl (List.mem_cons_of_mem _ hy)
        · simp only [upsertLatest, if_pos h, if_neg ht, List.mem_cons] at hy
          rcases hy with hy | hy
          · exact Or.inl (hy ▸ List.mem_cons_self _ _)
          · exact Or.inl (List.mem_cons_of_mem _ hy)
      · simp only [upsertLatest, if_neg h, List.mem_cons] at hy
        rcases hy with hy | hy
        · exact Or.inl (hy ▸ List.mem_cons_self _ _)
        · rcases ih hy with h' | h'
          · exact Or.inl (List.mem_cons_of_mem _ h')
          · exact Or.inr h'

theorem time_le_upsertLatest (acc : List α) (e : α) (y : α)
    (hnd : (acc.map key).Nodup)
    (hy : y ∈ upsertLatest key time acc e) (hk : key y = key e) :
    time e ≤ time y := by
  induction acc with
  | nil =>
      simp only [upsertLatest, List.mem_singleton] at hy
      exact hy ▸ le_refl _
  | cons x xs ih =>
      simp only [List.map_cons, List.nodup_cons] at hnd
      by_cases h : key x = key e
      · by_cases ht : time x < time e
        · simp only [upsertLatest, if_pos h, if_pos ht, List.mem_cons] at hy
          rcases hy with hy | hy
          · exact hy ▸ le_refl _
          · refine absurd ?_ hnd.1
            have hm := List.mem_map_of_mem key hy
            rwa [hk, ← h] at hm
        · simp only [upsertLatest, if_pos h, if_neg ht, List.mem_cons] at hy
          rcases hy with hy | hy
          · exact hy ▸ Nat.le_of_not_lt ht
          · refine absurd ?_ hnd.1
            have hm := List.mem_map_of_mem key hy
            rwa [hk, ← h] at hm
      · simp only [upsertLatest, if_neg h, List.mem_cons] at hy
        rcases hy with hy | hy
        · exact absurd (hy ▸ hk) h
        · exact ih hnd.2 hy

theorem exists_ge_upsertLatest (acc : List α) (e : α) (z : α) (hz : z ∈ acc) :
    ∃ y ∈ upsertLatest key time acc e, key y = key z ∧ time z ≤ time y := by
  induction acc with
  | nil => cases hz
  | cons x xs ih =>
      rcases List.mem_cons.mp hz with hz' | hz'
      · subst hz'
        by_cases h : key z = key e
        · by_cases ht : time z < time e
          · exact ⟨e, by simp [upsertLatest, if_pos h, if_pos ht], h.symm, Nat.le_of_lt ht⟩
          · exact ⟨z, by simp [upsertLatest, if_pos h, if_neg ht], rfl, le_refl _⟩
        · exact ⟨z, by simp [upsertLatest, if_neg h], rfl, le_refl _⟩
      · by_cases h : key x = key e
        · by_cases ht : time x < time e
          · exact ⟨z, by simp [upsertLatest, if_pos h, if_pos ht, hz'], rfl, le_refl _⟩
          · exact ⟨z, by simp [upsertLatest, if_pos h, if_neg ht, hz'], rfl, le_refl _⟩
        · rcases ih hz' with ⟨y, hy, hky, hty⟩
          exact ⟨y, by simp [upsertLatest, if_neg h, Or.inr hy], hky, hty⟩

theorem key_mem_foldl (l : List α) (acc : List α) (n : String) :
    n ∈ ((l.foldl (upsertLatest key time) acc).map key) ↔
      n ∈ acc.map key ∨ n ∈ l.map key := by
  induction l generalizing acc with
  | nil => simp
  | cons e es ih =>
      simp only [List.foldl_cons, List.map_cons, List.mem_cons, ih,
        key_mem_upsertLatest]
      tauto

theorem nodup_key_foldl (l : List α) (acc : List α)
    (hnd : (acc.map key).Nodup) :
    (((l.foldl (upsertLatest key time) acc)).map key).Nodup := by
  induction l generalizing acc with
  | nil => simpa
  | cons e es ih => exact ih _ (nodup_key_upsertLatest key time acc e hnd)

theorem mem_of_mem_foldl (l : List α) (acc : List α) (y : α)
    (hy : y ∈ l.foldl (upsertLatest key time) acc) : y ∈ acc ∨ y ∈ l := by
  induction l generalizing acc with
  | nil => exact Or.inl hy
  | cons e es ih =>
      rcases ih _ hy with h | h
      · rcases mem_of_mem_upsertLatest key time acc e y h with h' | h'
        · exact Or.inl h'
        · exact Or.inr (h' ▸ List.mem_cons_self _ _)
      · exact Or.inr (List.mem_cons_of_mem _ h)

theorem foldl_time_mono (l : List α) :
    ∀ (acc : List α), (acc.map key).Nodup →
      ∀ z ∈ acc, ∀ y ∈ l.foldl (upsertLatest key time) acc, key y = key z →
        time z ≤ time y := by
  induction l with
  | nil =>
      intro acc hnd z hz y hy hk
      exact (List.inj_on_of_nodup_map hnd hy hz hk) ▸ le_refl _
  | cons e es ih =>
      intro acc hnd z hz y hy hk
      rcases exists_ge_upsertLatest key time acc e z hz with ⟨w, hw, hkw, htw⟩
      exact le_trans htw
        (ih _ (nodup_key_upsertLatest key time acc e hnd) w hw y hy
          (hk.trans hkw.symm))

theorem foldl_dominates (l : List α) (acc : List α) (y : α)
    (hnd : (acc.map key).Nodup)
    (hy : y ∈ l.foldl (upsertLatest key time) acc) :
    ∀ e ∈ l, key e = key y → time e ≤ time y := by
  induction l generalizing acc with
  | nil => intro e he; cases he
  | cons a es ih =>
      intro e he hke
      rcases List.mem_cons.mp he with he' | he'
      · subst he'
        have hk : key e ∈ (upsertLatest key time acc e).map key := by
          rw [key_mem_upsertLatest]; exact Or.inr rfl
        rcases List.mem_map.mp hk with ⟨w, hw, hkw⟩
        have h1 : time e ≤ time w :=
          time_le_upsertLatest key time acc e w hnd hw hkw
        have h2 : time w ≤ time y :=
          foldl_time_mono key time es (upsertLatest key time acc e)
            (nodup_key_upsertLatest key time acc e hnd) w hw y hy
            (hkw.trans hke).symm
        exact le_trans h1 h2
      · exact ih _ (nodup_key_upsertLatest key time acc a hnd) hy e he' hke

theorem nodup_key_dedupByName (l : List α) :
    ((dedupByName key time l).map key).Nodup :=
  nodup_key_foldl key time l [] (by simp)

theorem mem_of_mem_dedupByName (l : List α) (y : α)
    (hy : y ∈ dedupByName key time l) : y ∈ l := by
  rcases mem_of_mem_foldl key time l [] y hy with h | h
  · cases h
  · exact h

theorem key_mem_dedupByName (l : List α) (n : String) :
    n ∈ (dedupByName key time l).map key ↔ n ∈ l.map key := by
  rw [dedupByName, key_mem_foldl]
  simp

theorem dedupByName_dominates (l : List α) (y : α)
    (hy : y ∈ dedupByName key time l) :
    ∀ e ∈ l, key e = key y → time e ≤ time y :=
  foldl_dominates key time l [] y (by simp) hy

theorem filter_key_singleton (L : List α) (e : α)
    (hnd : (L.map key).Nodup) (he : e ∈ L) :
    L.filter (fun x => key x == key e) = [e] := by
  induction L with
  | nil => cases he
  | cons x xs ih =>
      simp only [List.map_cons, List.nodup_cons] at hnd
      rcases List.mem_cons.mp he with he' | he'
      · subst he'
        have hfil : xs.filter (fun x => key x == key e) = [] := by
          rw [List.filter_eq_nil_iff]
          intro a ha
          simp only [beq_iff_eq]
          intro hkey
          exact hnd.1 (hkey ▸ List.mem_map_of_mem key ha)
        simp [List.filter_cons, hfil]
      · have hne : ¬ key x = key e := by
          intro hkey
          exact hnd.1 (hkey ▸ List.mem_map_of_mem key he')
        rw [List.filter_cons, if_neg (by simp [hne])]
        exact ih hnd.2 he'

end DedupLemmas

theorem dedupByName_filter_strict_latest {α : Type} (key : α → String)
    (time : α → Nat) (l : List α) (e : α) (he : e ∈ l)
    (hstrict : ∀ e' ∈ l, key e' = key e → e' ≠ e → time e' < time e) :
    (dedupByName key time l).filter (fun x => key x == key e) = [e] := by
  have hk : key e ∈ (dedupByName key time l).map key := by
    rw [key_mem_dedupByName]
    exact List.mem_map_of_mem key he
  rcases List.mem_map.mp hk with ⟨y, hy, hky⟩
  have hyl : y ∈ l := mem_of_mem_dedupByName key time l y hy
  have hdom : time e ≤ time y :=
    dedupByName_dominates key time l y hy e he hky.symm
  have hye : y = e := by
    by_contra hne
    exact absurd hdom (Nat.not_le_of_lt (hstrict y hyl hky hne))
  exact filter_key_singleton key (dedupByName key time l) e
    (nodup_key_dedupByName key time l) (hye ▸ hy)

theorem upsertLatest_eq_of_not_later {α : Type} (key : α → String)
    (time : α → Nat) (acc : List α) (e x : α)
    (hnd : (acc.map key).Nodup) (hx : x ∈ acc) (hk : key x = key e)
    (ht : ¬ time x < time e) : upsertLatest key time acc e = acc := by
  induction acc with
  | nil => cases hx
  | cons a as ih =>
      simp only [List.map_cons, List.nodup_cons] at hnd
      rcases List.mem_cons.mp hx with hx' | hx'
      · subst hx'
        simp [upsertLatest, if_pos hk, if_neg ht]
      · by_cases h : key a = key e
        · refine absurd ?_ hnd.1
          have hm := List.mem_map_of_mem key hx'
          rwa [hk, ← h] at hm
        · simp only [upsertLatest, if_neg h]
          rw [ih hnd.2 hx']

/- ## Claims about InstallationLog -/

/-- Claim C1: for every loaded installation record, `cleanupDuplicates`
leaves, for each name that has a strictly-latest entry, exactly that entry in
`pythonPackages` (resp. `fonts`), and then persists the reconciled record. -/
theorem c1_cleanup_dedup_keeps_latest_and_persists (st : LogState) (now : Nat) :
    (∀ e ∈ st.log.components.pythonPackages,
        (∀ e' ∈ st.log.components.pythonPackages,
            e'.name = e.name → e' ≠ e → e'.installedAt < e.installedAt) →
        (cleanupDuplicates now st).log.components.pythonPackages.filter
            (fun x => x.name == e.name) = [e])
  ∧ (∀ e ∈ st.log.components.fonts,
        (∀ e' ∈ st.log.components.fonts,
            e'.name = e.name → e' ≠ e → e'.installedAt < e.installedAt) →
        (cleanupDuplicates now st).log.components.fonts.filter
            (fun x => x.name == e.name) = [e])
  ∧ (cleanupDuplicates now st).file
      = some (stringifyRecord (cleanupDuplicates now st).log) := by
  refine ⟨?_, ?_, rfl⟩
  · intro e he hstrict
    have h := dedupByName_filter_strict_latest PkgEntry.name PkgEntry.installedAt
      st.log.components.pythonPackages e he hstrict
    simpa [cleanupDuplicates, save, saveWith, cleanupRecord] using h
  · intro e he hstrict
    have h := dedupByName_filter_strict_latest FontEntry.name FontEntry.installedAt
      st.log.components.fonts e he hstrict
    simpa [cleanupDuplicates, save, saveWith, cleanupRecord] using h

/-- Two duplicate package entries with distinct timestamps, for the C1 witness. -/
def c1A : PkgEntry := { name := "x", version := "1", installedAt := 1 }

/-- The later duplicate, which reconciliation must keep. -/
def c1B : PkgEntry := { name := "x", version := "2", installedAt := 2 }

/-- A state whose packages collection holds the two duplicates. -/
def c1State : LogState :=
  { log := { version := "1.0", installedAt := 0
             components := { pythonPackages := [c1A, c1B], fonts := [], scalars := [] }
             system := [] }
    file := none }

/-- Witness for C1 at a concrete duplicated record. -/
theorem c1_witness :
    (cleanupDuplicates 9 c1State).log.components.pythonPackages.filter
      (fun x => x.name == c1B.name) = [c1B] :=
  (c1_cleanup_dedup_keeps_latest_and_persists c1State 9).1 c1B (by decide) (by decide)

/-- Claim C10: on a name tie with equal `installedAt`, the dedup keeps the
earlier occurrence and discards the later one, in both collections; in
general the replacement test requires a strictly later timestamp, so an
incoming duplicate that is not strictly later leaves the accumulated object
unchanged. -/
theorem c10_tie_keeps_earlier (a b : PkgEntry) (c d : FontEntry)
    (hab : a.name = b.name) (tab : a.installedAt = b.installedAt)
    (hcd : c.name = d.name) (tcd : c.installedAt = d.installedAt) :
    dedupByName PkgEntry.name PkgEntry.installedAt [a, b] = [a]
  ∧ dedupByName FontEntry.name FontEntry.installedAt [c, d] = [c]
  ∧ (∀ (acc : List PkgEntry) (e x : PkgEntry),
        (acc.map PkgEntry.name).Nodup → x ∈ acc → x.name = e.name →
        ¬ x.installedAt < e.installedAt →
        upsertLatest PkgEntry.name PkgEntry.installedAt acc e = acc) := by
  refine ⟨?_, ?_, fun acc e x => upsertLatest_eq_of_not_later _ _ acc e x⟩
  · simp [dedupByName, upsertLatest, hab, tab]
  · simp [dedupByName, upsertLatest, hcd, tcd]

/-- Earlier entry of the C10 tie. -/
def c10a : PkgEntry := { name := "y", version := "1", installedAt := 5 }

/-- Later entry of the C10 tie (same name, same timestamp). -/
def c10b : PkgEntry := { name := "y", version := "2", installedAt := 5 }

/-- Earlier font entry of the C10 tie. -/
def c10c : FontEntry := { name := "f", path := "p1", installedAt := 5 }

/-- Later font entry of the C10 tie. -/
def c10d : FontEntry := { name := "f", path := "p2", installedAt := 5 }

/-- Witness for C10 at concrete tied entries. -/
theorem c10_witness :
    dedupByName PkgEntry.name PkgEntry.installedAt [c10a, c10b] = [c10a]
  ∧ dedupByName FontEntry.name FontEntry.installedAt [c10c, c10d] = [c10c] :=
  ⟨(c10_tie_keeps_earlier c10a c10b c10c c10d rfl rfl rfl rfl).1,
   (c10_tie_keeps_earlier c10a c10b c10c c10d rfl rfl rfl rfl).2.1⟩

/-- An empty log state (no packages, no fonts, no scalar data, no file),
used as a small concrete base state by several witnesses. -/
def emptyLogState : LogState :=
  { log := { version := "1.0", installedAt := 0
             components := { pythonPackages := [], fonts := [], scalars := [] }
             system := [] }
    file := none }

/-- A small concrete previously-persisted record for the C2 counterexample. -/
def c2Old : InstallationRecord :=
  { version := "9.9", installedAt := 1
    components := { pythonPackages := [], fonts := [], scalars := [] }
    system := [] }

/-- A small concrete new record whose write will fail mid-way. -/
def c2New : InstallationRecord :=
  { version := "2.0", installedAt := 2
    components := { pythonPackages := [], fonts := [], scalars := [] }
    system := [] }

/-- The constructor defaults in play during the C2 load. -/
def c2Dflt : InstallationRecord := defaultRecord 0 []

/-- Counterexample to claim C2: `save` writes with a plain `writeFileSync`
(no temp-file-and-rename), so a write that fails after one character leaves a
truncated file that is neither the old nor the new record, and a subsequent
`load()` of that file falls back to the constructor defaults — not to the
last successfully persisted record. -/
theorem c2_counterexample :
    (saveWith (.failsAfter 1)
        { log := c2New, file := some (stringifyRecord c2Old) }).file
      ≠ some (stringifyRecord c2New)
  ∧ (saveWith (.failsAfter 1)
        { log := c2New, file := some (stringifyRecord c2Old) }).file
      ≠ some (stringifyRecord c2Old)
  ∧ (load (saveWith (.failsAfter 1)
        { log := c2New, file := some (stringifyRecord c2Old) }).file
        c2Dflt 3).log ≠ c2Old := by
  decide

/-- Claim C2 as amended: a `save` whose write completes replaces the whole
persisted value; a write failing after `k` characters leaves exactly the
truncated prefix of the new serialization (destroying the previous value);
and a subsequent `load()` keeps the constructor defaults when the file fails
to parse, while a parseable file is adopted and reconciled. -/
theorem c2_amended_write_through (st : LogState) (r d : InstallationRecord)
    (s : List Char) (now k : Nat) :
    (save st).file = some (stringifyRecord st.log)
  ∧ (saveWith (.failsAfter k) st).file = some ((stringifyRecord st.log).take k)
  ∧ (parseRecord s = none → (load (some s) d now).log = d)
  ∧ (parseRecord s = some r →
      load (some s) d now = cleanupDuplicates now { log := r, file := some s }) := by
  refine ⟨rfl, rfl, ?_, ?_⟩
  · intro h
    simp [load, h]
  · intro h
    simp [load, h]

/-- Witness for the amended C2 at a concrete truncated file and a concrete
well-formed file. -/
theorem c2_witness :
    (load (some ((stringifyRecord c2New).take 1)) c2Dflt 3).log = c2Dflt
  ∧ load (some (stringifyRecord c2Old)) c2Dflt 3
      = cleanupDuplicates 3 { log := c2Old, file := some (stringifyRecord c2Old) } :=
  ⟨(c2_amended_write_through emptyLogState c2Old c2Dflt
      ((stringifyRecord c2New).take 1) 3 0).2.2.1 (by decide),
   (c2_amended_write_through emptyLogState c2Old c2Dflt
      (stringifyRecord c2Old) 3 0).2.2.2 (by decide)⟩

/-- Counterexample to claim C3: `addPythonPackage` stamps only the entry it
upserts and never refreshes the root `installedAt`, so after a mutation at
instant 5 the record root still carries its previous timestamp 0. -/
theorem c3_counterexample :
    (addPythonPackage "soundfile" "0.12" 5 emptyLogState).log.installedAt = 0
  ∧ (0 : Nat) ≠ 5 := by
  decide

/-- Claim C3 as amended: the root `installedAt` is refreshed by every
reconciliation (`cleanupDuplicates`), but the mutation methods
(`addPythonPackage`, `addFont`, `setComponent`) leave the root timestamp
unchanged — they stamp only the affected entry. -/
theorem c3_amended_root_timestamp (st : LogState) (now : Nat)
    (name ver pth key : String) (data : Fields) :
    (cleanupDuplicates now st).log.installedAt = now
  ∧ (addPythonPackage name ver now st).log.installedAt = st.log.installedAt
  ∧ (addFont name pth now st).log.installedAt = st.log.installedAt
  ∧ (setComponent key data st).log.installedAt = st.log.installedAt :=
  ⟨rfl, rfl, rfl, rfl⟩

/- ## Lemmas about PackageInstaller.install -/

theorem any_key_upsertEntry {α : Type} (key : α → String) (acc : List α)
    (e : α) (m : String) :
    (upsertEntry key acc e).any (fun x => key x == m)
      = (acc.any (fun x => key x == m) || (key e == m)) := by
  induction acc with
  | nil => simp [upsertEntry]
  | cons x xs ih =>
      by_cases h : key x = key e
      · simp only [upsertEntry]
        rw [if_pos h, List.any_cons, List.any_cons, h]
        cases hke : (key e == m) <;>
          cases hxs : xs.any (fun x => key x == m) <;> rfl
      · simp only [upsertEntry, if_neg h, List.any_cons, ih]
        rw [Bool.or_assoc]

theorem hasPkg_addPythonPackage (st : LogState) (name ver : String)
    (now : Nat) (m : String) :
    hasPkgNamed (addPythonPackage name ver now st) m
      = (hasPkgNamed st m || (name == m)) := by
  have h := any_key_upsertEntry PkgEntry.name
    st.log.components.pythonPackages
    { name := name, version := ver, installedAt := now } m
  simpa [hasPkgNamed, addPythonPackage, save, saveWith] using h

theorem installed_foldl (env : PipEnv) (now : Nat) (pkgs : List String) :
    ∀ (inst : PackageInstaller) (st : LogState),
      (pkgs.foldl (installStep env now) (inst, st)).1.installed
        = inst.installed ++ pkgs.filter env.installOk := by
  induction pkgs with
  | nil => intro inst st; simp
  | cons n ns ih =>
      intro inst st
      by_cases h : env.installOk n
      · simp [installStep, h, ih, List.filter_cons]
      · simp [installStep, h, ih, List.filter_cons]

theorem failed_foldl (env : PipEnv) (now : Nat) (pkgs : List String) :
    ∀ (inst : PackageInstaller) (st : LogState),
      (pkgs.foldl (installStep env now) (inst, st)).1.failed
        = inst.failed ++ pkgs.filter (fun n => !(env.installOk n)) := by
  induction pkgs with
  | nil => intro inst st; simp
  | cons n ns ih =>
      intro inst st
      by_cases h : env.installOk n
      · simp [installStep, h, ih, List.filter_cons]
      · simp [installStep, h, ih, List.filter_cons]

theorem hasPkg_foldl_preserved (env : PipEnv) (now : Nat) (pkgs : List String) :
    ∀ (inst : PackageInstaller) (st : LogState) (m : String),
      hasPkgNamed st m = true →
      hasPkgNamed ((pkgs.foldl (installStep env now) (inst, st)).2) m = true := by
  induction pkgs with
  | nil => intro inst st m hm; exact hm
  | cons n ns ih =>
      intro inst st m hm
      by_cases h : env.installOk n
      · simp only [List.foldl_cons, installStep, if_pos h]
        exact ih _ _ m (by rw [hasPkg_addPythonPackage, hm, Bool.true_or])
      · simp only [List.foldl_cons, installStep, if_neg h]
        exact ih _ _ m hm

theorem hasPkg_foldl_of_success (env : PipEnv) (now : Nat) (pkgs : List String) :
    ∀ (inst : PackageInstaller) (st : LogState) (m : String),
      m ∈ pkgs → env.installOk m = true →
      hasPkgNamed ((pkgs.foldl (installStep env now) (inst, st)).2) m = true := by
  induction pkgs with
  | nil => intro inst st m hm; cases hm
  | cons n ns ih =>
      intro inst st m hm hok
      rcases List.mem_cons.mp hm with hm' | hm'
      · subst hm'
        simp only [List.foldl_cons, installStep, if_pos hok]
        refine hasPkg_foldl_preserved env now ns _ _ m ?_
        rw [hasPkg_addPythonPackage]
        simp
      · by_cases h : env.installOk n
        · simp only [List.foldl_cons, installStep, if_pos h]
          exact ih _ _ m hm' hok
        · simp only [List.foldl_cons, installStep, if_neg h]
          exact ih _ _ m hm' hok

/-- Claim C4: `install()` attempts every dependency in order, ends with the
succeeding names in `installed` and the failing names in `failed` (one
item's failure never blocks the rest), records every successful item in the
installation log, and reports overall success exactly when the failed list
is empty. -/
theorem c4_install_partial_failure_isolation (env : PipEnv) (now : Nat)
    (v : String) (pkgs : List String) (st : LogState) :
    (install env now
        { venvPython := v, packages := pkgs, installed := [], failed := [] }
        st).1.installed = pkgs.filter env.installOk
  ∧ (install env now
        { venvPython := v, packages := pkgs, installed := [], failed := [] }
        st).1.failed = pkgs.filter (fun n => !(env.installOk n))
  ∧ ((install env now
        { venvPython := v, packages := pkgs, installed := [], failed := [] }
        st).2.2 = true ↔
      (install env now
        { venvPython := v, packages := pkgs, installed := [], failed := [] }
        st).1.failed = [])
  ∧ (∀ m ∈ pkgs, env.installOk m = true →
      hasPkgNamed (install env now
        { venvPython := v, packages := pkgs, installed := [], failed := [] }
        st).2.1 m = true) := by
  refine ⟨?_, ?_, ?_, ?_⟩
  · simpa [install] using installed_foldl env now pkgs
      { venvPython := v, packages := pkgs, installed := [], failed := [] } st
  · simpa [install] using failed_foldl env now pkgs
      { venvPython := v, packages := pkgs, installed := [], failed := [] } st
  · simp [install, List.length_eq_zero]
  · intro m hm hok
    simpa [install] using hasPkg_foldl_of_success env now pkgs
      { venvPython := v, packages := pkgs, installed := [], failed := [] } st m hm hok

/-- The C4 witness oracle: installing `A` and `C` succeeds, `B` fails, and
the version query always fails (so versions are recorded as `unknown`). -/
def c4Env : PipEnv :=
  { installOk := fun n => n == "A" || n == "C", showVersion := fun _ => none }

/-- Witness for C4: for the list `[A, B, C]` with `B` failing, the result is
`installed = [A, C]`, `failed = [B]`, overall failure, and `A` and `C` are
recorded in the log. -/
theorem c4_witness :
    (install c4Env 7
        { venvPython := "py", packages := ["A", "B", "C"], installed := [], failed := [] }
        emptyLogState).1.installed = ["A", "C"]
  ∧ (install c4Env 7
        { venvPython := "py", packages := ["A", "B", "C"], installed := [], failed := [] }
        emptyLogState).1.failed = ["B"]
  ∧ hasPkgNamed (install c4Env 7
        { venvPython := "py", packages := ["A", "B", "C"], installed := [], failed := [] }
        emptyLogState).2.1 "A" = true
  ∧ hasPkgNamed (install c4Env 7
        { venvPython := "py", packages := ["A", "B", "C"], installed := [], failed := [] }
        emptyLogState).2.1 "C" = true :=
  ⟨((c4_install_partial_failure_isolation c4Env 7 "py" ["A", "B", "C"]
      emptyLogState).1).trans (by decide),
   ((c4_install_partial_failure_isolation c4Env 7 "py" ["A", "B", "C"]
      emptyLogState).2.1).trans (by decide),
   (c4_install_partial_failure_isolation c4Env 7 "py" ["A", "B", "C"]
      emptyLogState).2.2.2 "A" (by decide) (by decide),
   (c4_install_partial_failure_isolation c4Env 7 "py" ["A", "B", "C"]
      emptyLogState).2.2.2 "C" (by decide) (by decide)⟩

/- ## Claim C5: the Python detection loop -/

/-- Modelled from the spec's words (refinement side of C5): the claim reads
the threshold as the pair order "major.minor at or above 3.8". -/
def specAtLeast38 (ma mi : Int) : Prop := 3 < ma ∨ (ma = 3 ∧ 8 ≤ mi)

/-- Probe oracle for the C5 counterexample: only `python3` exists and
reports version 4.0.1. -/
def c5Env : String → Option (List Char) :=
  fun c => if c = "python3" then some ("Python 4.0.1".data) else none

/-- Counterexample to claim C5: `Python 4.0.1` parses to major.minor 4.0,
which is at or above 3.8 in the claimed ordering, yet the loop's test
`parseInt(major) >= 3 && parseInt(minor) >= 8` rejects it (0 < 8), so
detection over the whole candidate list yields `none` instead of accepting
the candidate. -/
theorem c5_counterexample :
    parsedMajorMinor ("Python 4.0.1".data) = some (4, 0)
  ∧ specAtLeast38 4 0
  ∧ detectPython c5Env pythonCommands = none := by
  refine ⟨by decide, Or.inl (by norm_num), by decide⟩

theorem detectPython_eq_find (env : String → Option (List Char))
    (cands : List String) :
    detectPython env cands = cands.find? (qualifies env) := by
  induction cands with
  | nil => rfl
  | cons c cs ih =>
      cases henv : env c with
      | none =>
          simp only [detectPython, henv]
          rw [ih, List.find?_cons_of_neg _ (by simp [qualifies, henv])]
      | some out =>
          by_cases hacc : acceptsVersion out = true
          · simp only [detectPython, henv]
            rw [if_pos hacc,
              List.find?_cons_of_pos _ (by simp [qualifies, henv, hacc])]
          · simp only [detectPython, henv]
            rw [if_neg hacc, ih,
              List.find?_cons_of_neg _ (by simp [qualifies, henv]; simpa using hacc)]

/-- Claim C5 as amended: the detection loop returns the first candidate, in
list order, whose version output passes the code's test — parsed major `≥ 3`
and parsed minor `≥ 8` (so e.g. 4.0 is rejected) — and yields `none` rather
than throwing when no candidate qualifies. -/
theorem c5_amended_first_qualifying (env : String → Option (List Char))
    (cands : List String) :
    detectPython env cands = cands.find? (qualifies env)
  ∧ (detectPython env cands = none ↔ ∀ c ∈ cands, qualifies env c = false)
  ∧ (∀ (out : List Char) (ma mi : Int), parsedMajorMinor out = some (ma, mi) →
      (acceptsVersion out = true ↔ 3 ≤ ma ∧ 8 ≤ mi)) := by
  refine ⟨detectPython_eq_find env cands, ?_, ?_⟩
  · rw [detectPython_eq_find env cands, List.find?_eq_none]
    constructor
    · intro h c hc
      simpa using h c hc
    · intro h c hc
      simp [h c hc]
  · intro out ma mi h
    simp [acceptsVersion, h]

/-- Probe oracle for the C5 witness: `python3` reports 3.9.2. -/
def c5EnvW : String → Option (List Char) :=
  fun c => if c = "python3" then some ("Python 3.9.2".data) else none

/-- Witness for the amended C5 at a concrete probe oracle. -/
theorem c5_witness :
    detectPython c5EnvW pythonCommands = pythonCommands.find? (qualifies c5EnvW)
  ∧ (acceptsVersion ("Python 3.9.2".data) = true ↔ 3 ≤ (3 : Int) ∧ 8 ≤ (9 : Int)) :=
  ⟨(c5_amended_first_qualifying c5EnvW pythonCommands).1,
   (c5_amended_first_qualifying c5EnvW pythonCommands).2.2
     ("Python 3.9.2".data) 3 9 (by decide)⟩

/- ## Claims C6 and C8: installFonts items -/

/-- The first font descriptor of the `fonts` array. -/
def c6Font : FontSpec :=
  { name := "3270 Nerd Font"
    url := "https://github.com/ryanoasis/nerd-fonts/releases/download/v3.1.1/3270.zip"
    file := "3270-NerdFont-Regular.ttf" }

/-- Environment in which the download promise rejects. -/
def c6EnvDownloadFail : FontEnv :=
  { downloadOk := false, extractOk := true, extractedFiles := [] }

/-- Counterexample to claim C6: when the download fails, control jumps from
`await downloadFile(...)` to the catch block, and the `fs.rmSync(tempDir)`
at the end of the try block never runs — the scratch directory is created
but not removed. -/
theorem c6_counterexample :
    (installFontItem c6EnvDownloadFail c6Font [] 0 emptyLogState).1.tempCreated = true
  ∧ (installFontItem c6EnvDownloadFail c6Font [] 0 emptyLogState).1.tempRemoved = false := by
  decide

/-- Claim C6 as amended: on a cache miss the scratch directory is created,
and it is removed exactly when both the download and the extraction succeed
(the removal is indifferent to whether a regular variant was found, but a
throwing download or extraction skips it). -/
theorem c6_amended_cleanup (env : FontEnv) (font : FontSpec) (cache : FS)
    (now : Nat) (st : LogState)
    (hmiss : fsRead cache (fontPathOf font) = none) :
    (installFontItem env font cache now st).1.tempCreated = true
  ∧ (installFontItem env font cache now st).1.tempRemoved
      = (env.downloadOk && env.extractOk) := by
  cases hd : env.downloadOk with
  | false => simp [installFontItem, hmiss, hd]
  | true =>
      cases he : env.extractOk with
      | false => simp [installFontItem, hmiss, hd, he]
      | true =>
          cases hf : findRegularVariant env.extractedFiles <;>
            simp [installFontItem, hmiss, hd, he, hf]

/-- Environment in which download and extraction succeed and a regular
variant is present. -/
def c6EnvW : FontEnv :=
  { downloadOk := true, extractOk := true
    extractedFiles := ["3270NerdFont-Regular.ttf".data] }

/-- Witness for the amended C6 at a concrete cache miss. -/
theorem c6_witness :
    (installFontItem c6EnvW c6Font [] 0 emptyLogState).1.tempCreated = true
  ∧ (installFontItem c6EnvW c6Font [] 0 emptyLogState).1.tempRemoved
      = (c6EnvW.downloadOk && c6EnvW.extractOk) :=
  c6_amended_cleanup c6EnvW c6Font [] 0 emptyLogState (by decide)

/-- Claim C8: when the destination path for a font already exists, the item
is reported as already cached, performs zero network calls, and leaves the
cache and the installation log unchanged. -/
theorem c8_cache_hit_skips_network (env : FontEnv) (font : FontSpec)
    (cache : FS) (now : Nat) (st : LogState)
    (hhit : (fsRead cache (fontPathOf font)).isSome = true) :
    (installFontItem env font cache now st).1.networkCalls = 0
  ∧ (installFontItem env font cache now st).1.cachedSkip = true
  ∧ (installFontItem env font cache now st).1.cache = cache
  ∧ (installFontItem env font cache now st).2 = st := by
  refine ⟨?_, ?_, ?_, ?_⟩ <;> simp [installFontItem, hhit]

/-- The second font descriptor of the `fonts` array. -/
def c8Font : FontSpec :=
  { name := "Departure Mono"
    url := "https://github.com/rektdeckard/departure-mono/releases/download/v1.500/DepartureMono-1.500.zip"
    file := "DepartureMono-Regular.ttf" }

/-- A cache already holding the destination file for `c8Font`. -/
def c8Cache : FS := [(fontPathOf c8Font, "cached-bytes".data)]

/-- Witness for C8 at a concrete warm cache. -/
theorem c8_witness :
    (installFontItem c6EnvW c8Font c8Cache 0 emptyLogState).1.networkCalls = 0
  ∧ (installFontItem c6EnvW c8Font c8Cache 0 emptyLogState).1.cachedSkip = true
  ∧ (installFontItem c6EnvW c8Font c8Cache 0 emptyLogState).1.cache = c8Cache
  ∧ (installFontItem c6EnvW c8Font c8Cache 0 emptyLogState).2 = emptyLogState :=
  c8_cache_hit_skips_network c6EnvW c8Font c8Cache 0 emptyLogState (by decide)

/- ## Claim C7: updateShellConfig -/

theorem isPrefixB_append (n : List Char) :
    ∀ (s t : List Char), isPrefixB n s = true → isPrefixB n (s ++ t) = true := by
  induction n with
  | nil => intro s t _; rfl
  | cons a as ih =>
      intro s t h
      cases s with
      | nil => cases h
      | cons b bs =>
          simp only [isPrefixB, Bool.and_eq_true] at h
          simp only [List.cons_append, isPrefixB, Bool.and_eq_true]
          exact ⟨h.1, ih bs t h.2⟩

theorem isInfixB_append_left (n : List Char) :
    ∀ (s t : List Char), isInfixB n s = true → isInfixB n (s ++ t) = true := by
  intro s
  induction s with
  | nil =>
      intro t h
      cases n with
      | nil =>
          cases t with
          | nil => rfl
          | cons c cs => simp [isInfixB, isPrefixB]
      | cons a as => cases h
  | cons c cs ih =>
      intro t h
      simp only [isInfixB, Bool.or_eq_true] at h
      simp only [List.cons_append, isInfixB, Bool.or_eq_true]
      rcases h with h | h
      · exact Or.inl (by simpa using isPrefixB_append n (c :: cs) t h)
      · exact Or.inr (ih t h)

theorem isInfixB_append_right (n : List Char) :
    ∀ (s t : List Char), isInfixB n t = true → isInfixB n (s ++ t) = true := by
  intro s
  induction s with
  | nil => intro t h; exact h
  | cons c cs ih =>
      intro t h
      simp only [List.cons_append, isInfixB, Bool.or_eq_true]
      exact Or.inr (ih t h)

theorem marker_in_envConfigBlock (venvDir : String) :
    isInfixB KOSHI_MARKER (envConfigBlock venvDir) = true := by
  unfold envConfigBlock
  refine isInfixB_append_left _ _ _ ?_
  refine isInfixB_append_left _ _ _ ?_
  refine isInfixB_append_left _ _ _ ?_
  refine isInfixB_append_left _ _ _ ?_
  decide

theorem lookupFields_setField_self (l : Fields) (k : String) (v : FieldVal) :
    lookupFields (setField l k v) k = some v := by
  induction l with
  | nil => simp [setField, lookupFields]
  | cons kv rest ih =>
      obtain ⟨k0, v0⟩ := kv
      by_cases h : k0 = k
      · simp [setField, h, lookupFields]
      · simp [setField, h, lookupFields, ih]

theorem lookupFields_setField_other (l : Fields) (k k' : String) (v : FieldVal)
    (h : ¬ k' = k) : lookupFields (setField l k v) k' = lookupFields l k' := by
  have hne : ¬ k = k' := fun hk => h hk.symm
  induction l with
  | nil => simp [setField, lookupFields, hne]
  | cons kv rest ih =>
      obtain ⟨k0, v0⟩ := kv
      by_cases h0 : k0 = k
      · subst h0
        simp [setField, lookupFields, hne]
      · simp [setField, h0, lookupFields, ih]

theorem lookupScalar_setScalars (ss : List (String × Fields)) (key : String)
    (d : Fields) :
    ∃ base : Fields, lookupScalar (setScalars ss key d) key = some (mergeFields base d) := by
  induction ss with
  | nil => exact ⟨[], by simp [setScalars, lookupScalar]⟩
  | cons kv rest ih =>
      obtain ⟨k0, f0⟩ := kv
      by_cases h : k0 = key
      · exact ⟨f0, by simp [setScalars, h, lookupScalar]⟩
      · rcases ih with ⟨base, hb⟩
        exact ⟨base, by simp [setScalars, h, lookupScalar, hb]⟩

/-- The `shellConfig` data recorded by `updateShellConfig`. -/
def shellConfigData (now : Nat) : Fields :=
  [("modified", .bool true), ("backupPath", .str (backupPathOf now))]

theorem lookup_shellConfigData (ss : List (String × Fields)) (now : Nat) :
    (lookupScalar (setScalars ss "shellConfig" (shellConfigData now))
        "shellConfig").bind (fun f => lookupFields f "backupPath")
      = some (.str (backupPathOf now))
  ∧ (lookupScalar (setScalars ss "shellConfig" (shellConfigData now))
        "shellConfig").bind (fun f => lookupFields f "modified")
      = some (.bool true) := by
  rcases lookupScalar_setScalars ss "shellConfig" (shellConfigData now) with ⟨base, hb⟩
  rw [hb]
  constructor
  · simp only [Option.some_bind, mergeFields, shellConfigData, List.foldl_cons,
      List.foldl_nil]
    exact lookupFields_setField_self _ _ _
  · simp only [Option.some_bind, mergeFields, shellConfigData, List.foldl_cons,
      List.foldl_nil]
    rw [lookupFields_setField_other _ _ _ _ (by decide)]
    exact lookupFields_setField_self _ _ _

/-- Claim C7: `updateShellConfig` is idempotent via the marker gate — a
profile already containing `KOSHI_VOX_VENV` is left entirely unchanged (no
backup, no log write); otherwise the profile is backed up to the timestamped
path, the fixed block is appended once, and the backup path is recorded under
the `shellConfig` component; and running the operation twice equals running
it once. -/
theorem c7_shell_config_idempotent (venvDir : String) (now now2 : Nat)
    (s : ShellState) :
    (isInfixB KOSHI_MARKER s.profile = true → updateShellConfig venvDir now s = s)
  ∧ (isInfixB KOSHI_MARKER s.profile = false →
      (updateShellConfig venvDir now s).profile = s.profile ++ envConfigBlock venvDir
    ∧ (updateShellConfig venvDir now s).backups
        = s.backups ++ [(backupPathOf now, s.profile)]
    ∧ (lookupScalar (updateShellConfig venvDir now s).logSt.log.components.scalars
          "shellConfig").bind (fun f => lookupFields f "backupPath")
        = some (.str (backupPathOf now))
    ∧ (lookupScalar (updateShellConfig venvDir now s).logSt.log.components.scalars
          "shellConfig").bind (fun f => lookupFields f "modified")
        = some (.bool true))
  ∧ updateShellConfig venvDir now2 (updateShellConfig venvDir now s)
      = updateShellConfig venvDir now s := by
  refine ⟨?_, ?_, ?_⟩
  · intro h
    simp [updateShellConfig, h]
  · intro h
    refine ⟨by simp [updateShellConfig, h], by simp [updateShellConfig, h], ?_, ?_⟩
    · have := (lookup_shellConfigData s.logSt.log.components.scalars now).1
      simpa [updateShellConfig, h, setComponent, save, saveWith, shellConfigData]
        using this
    · have := (lookup_shellConfigData s.logSt.log.components.scalars now).2
      simpa [updateShellConfig, h, setComponent, save, saveWith, shellConfigData]
        using this
  · by_cases h : isInfixB KOSHI_MARKER s.profile = true
    · simp [updateShellConfig, h]
    · have h1 : updateShellConfig venvDir now s
          = { profile := s.profile ++ envConfigBlock venvDir
              backups := s.backups ++ [(backupPathOf now, s.profile)]
              logSt := setComponent "shellConfig"
                [("modified", .bool true), ("backupPath", .str (backupPathOf now))]
                s.logSt } := by
        simp [updateShellConfig, h]
      have h2 : isInfixB KOSHI_MARKER (s.profile ++ envConfigBlock venvDir) = true :=
        isInfixB_append_right _ _ _ (marker_in_envConfigBlock venvDir)
      rw [h1]
      simp [updateShellConfig, h2]

/-- A concrete profile without the marker. -/
def c7State : ShellState :=
  { profile := "export PATH=/usr/bin\n".data, backups := [], logSt := emptyLogState }

/-- Witness for C7 at a concrete unconfigured profile. -/
theorem c7_witness :
    (updateShellConfig "~/.koshi-vox-env" 42 c7State).profile
      = c7State.profile ++ envConfigBlock "~/.koshi-vox-env"
  ∧ updateShellConfig "~/.koshi-vox-env" 43
        (updateShellConfig "~/.koshi-vox-env" 42 c7State)
      = updateShellConfig "~/.koshi-vox-env" 42 c7State :=
  ⟨((c7_shell_config_idempotent "~/.koshi-vox-env" 42 43 c7State).2.1 (by decide)).1,
   (c7_shell_config_idempotent "~/.koshi-vox-env" 42 43 c7State).2.2⟩

/- ## Claim C9: redirect chains in downloadFile -/

theorem fsRead_fsWrite_self (fsys : FS) (p : String) (c : List Char) :
    fsRead (fsWrite fsys p c) p = some c := by
  induction fsys with
  | nil => simp [fsWrite, fsRead]
  | cons kv rest ih =>
      obtain ⟨p0, c0⟩ := kv
      by_cases h : p0 = p
      · simp [fsWrite, h, fsRead]
      · simp [fsWrite, h, fsRead, ih]

theorem fsRead_fsWrite_other (fsys : FS) (p q : String) (c : List Char)
    (h : ¬ q = p) : fsRead (fsWrite fsys p c) q = fsRead fsys q := by
  have hne : ¬ p = q := fun hq => h hq.symm
  induction fsys with
  | nil => simp [fsWrite, fsRead, hne]
  | cons kv rest ih =>
      obtain ⟨p0, c0⟩ := kv
      by_cases h0 : p0 = p
      · subst h0
        simp [fsWrite, fsRead, hne]
      · simp [fsWrite, h0, fsRead, ih]

theorem fsRead_fsErase_other (fsys : FS) (p q : String)
    (h : ¬ q = p) : fsRead (fsErase fsys p) q = fsRead fsys q := by
  have hne : ¬ p = q := fun hq => h hq.symm
  induction fsys with
  | nil => simp [fsErase]
  | cons kv rest ih =>
      obtain ⟨p0, c0⟩ := kv
      by_cases h0 : p0 = p
      · subst h0
        simp [fsErase, fsRead, hne]
      · simp [fsErase, h0, fsRead, ih]

/-- Claim C9: along any finite redirect chain whose non-terminal responses
are 301/302 with a `Location` header and whose terminal response is a 200,
`downloadFile` re-invokes the fetch against each `Location` target in turn
and stores the terminal URL's body at the original destination path, leaving
every other path untouched (given fuel exceeding the chain length; the JS
recursion is unbounded). -/
theorem c9_redirects_store_at_original_dest (net : String → HttpResponse)
    (u t : String) (k : Nat) (h : ReachesTerminal net u k t) :
    ∀ (fuel : Nat) (dest : String) (fsys : FS), k < fuel →
      ∃ fsys', downloadFile net fuel u dest fsys = .ok fsys'
        ∧ fsRead fsys' dest = some (net t).body
        ∧ ∀ p, ¬ p = dest → fsRead fsys' p = fsRead fsys p := by
  induction h with
  | terminal u h200 =>
      intro fuel dest fsys hf
      match fuel, hf with
      | fuel + 1, _ =>
          refine ⟨fsWrite fsys dest (net u).body, ?_, fsRead_fsWrite_self _ _ _, ?_⟩
          · simp [downloadFile, h200]
          · intro p hp
            exact fsRead_fsWrite_other fsys dest p (net u).body hp
  | redirect u v t k h30x hloc hreach ih =>
      intro fuel dest fsys hf
      match fuel, hf with
      | fuel + 1, hf =>
          have hk : k < fuel := Nat.lt_of_succ_lt_succ hf
          rcases ih fuel dest (fsErase (fsWrite fsys dest []) dest) hk with
            ⟨fsys', hok, hread, hother⟩
          refine ⟨fsys', ?_, hread, ?_⟩
          · simp [downloadFile, h30x, hloc, hok]
          · intro p hp
            rw [hother p hp, fsRead_fsErase_other _ _ _ hp,
              fsRead_fsWrite_other _ _ _ _ hp]

/-- A concrete network with a redirect chain of length 3:
`u0 →302 u1 →301 u2 →302 u3`, with `u3` serving the content. -/
def c9Net : String → HttpResponse := fun u =>
  if u = "u0" then { statusCode := 302, location := some "u1", body := [] }
  else if u = "u1" then { statusCode := 301, location := some "u2", body := [] }
  else if u = "u2" then { statusCode := 302, location := some "u3", body := [] }
  else if u = "u3" then { statusCode := 200, location := none, body := "font-bytes".data }
  else { statusCode := 404, location := none, body := [] }

/-- Witness for C9 at the concrete three-hop chain. -/
theorem c9_witness :
    ∃ fsys', downloadFile c9Net 4 "u0" "dest.zip" [] = .ok fsys'
      ∧ fsRead fsys' "dest.zip" = some (c9Net "u3").body
      ∧ ∀ p, ¬ p = "dest.zip" → fsRead fsys' p = fsRead [] p :=
  c9_redirects_store_at_original_dest c9Net "u0" "u3" 3
    (.redirect "u0" "u1" "u3" 2 (Or.inr (by decide)) (by decide)
      (.redirect "u1" "u2" "u3" 1 (Or.inl (by decide)) (by decide)
        (.redirect "u2" "u3" "u3" 0 (Or.inr (by decide)) (by decide)
          (.terminal "u3" (by decide)))))
    4 "dest.zip" [] (by decide)
